import Mathlib

/-!
# Verification of the staticx bootloader (src/bootloader/main.c)

A shallow embedding of the bootloader's core routines: the ELF lookup
helpers (`elf_get_proghdr_by_type`, `elf_get_section`), the patching
operations (`set_interp`, `set_rpath`, `patch_prog_paths`), the xz
pull-based read adapter (`xz_read`), and the wait-status translation at
the end of `main`.

The mapped file is modelled as a `List Nat` of bytes.  A memory access
that the C code performs without a bounds check is modelled by an
`Option`-returning read/write; a `none` result marks an out-of-bounds
access (undefined behavior in the C program), kept distinct from the
`error(2, ...)` fatal-exit paths.
-/

namespace Staticx

/-! ## Byte-buffer primitives -/

/-- Read one byte of the mapped file; `none` models an out-of-bounds access. -/
def readByte (buf : List Nat) (i : Nat) : Option Nat :=
  buf.get? i

/-- Read a little-endian 64-bit word (e.g. an `Elf64_Xword` field). -/
def readU64 (buf : List Nat) (off : Nat) : Option Nat :=
  if off + 8 ≤ buf.length then
    some (((buf.drop off).take 8).foldr (fun b acc => b + 256 * acc) 0)
  else none

/-- Read a little-endian 32-bit word (e.g. an `Elf64_Word` field). -/
def readU32 (buf : List Nat) (off : Nat) : Option Nat :=
  if off + 4 ≤ buf.length then
    some (((buf.drop off).take 4).foldr (fun b acc => b + 256 * acc) 0)
  else none

/-- Overwrite `bs.length` bytes at `off`; `none` models a write that runs
past the end of the mapping. -/
def writeBytes (buf : List Nat) (off : Nat) (bs : List Nat) : Option (List Nat) :=
  if off + bs.length ≤ buf.length then
    some (buf.take off ++ bs ++ buf.drop (off + bs.length))
  else none

/-- The `n`-byte slice of the buffer starting at `off`. -/
def sliceAt (buf : List Nat) (off n : Nat) : List Nat :=
  (buf.drop off).take n

/-- The `strlen` of an in-memory C string given as a byte list (no terminator
needed in the list; counts bytes before the first NUL). -/
def cstrlen (s : List Nat) : Nat :=
  (s.takeWhile (fun b => b != 0)).length

/-- The `strlen` starting at offset `off` of the buffer; `none` models the
read running off the end of the mapping before any NUL byte. -/
def cstrlenAt (buf : List Nat) (off : Nat) : Option Nat :=
  let tail := buf.drop off
  let pre := tail.takeWhile (fun b => b != 0)
  if pre.length = tail.length then none else some pre.length

/-- The bytes `strcpy` writes for source string `s`: its NUL-free prefix
plus the terminator. -/
def cstrBytes (s : List Nat) : List Nat :=
  s.takeWhile (fun b => b != 0) ++ [0]

/-- Outcome of a C routine: normal result, `error(2, ...)` fatal exit
with the given message, or an out-of-bounds memory access. -/
inductive COut (α : Type) where
  | ok (val : α)
  | fatal (msg : String)
  | oob
deriving DecidableEq, Repr

/-! ## Wait-status translation (tail of `main`, main.c lines 576-595)

The glibc wait-status macros on a status word `w`:
`WIFEXITED w` is `(w & 0x7f) == 0`, `WEXITSTATUS w` is `(w & 0xff00) >> 8`,
`WTERMSIG w` is `w & 0x7f`, and `WIFSIGNALED w` holds when the low seven
bits are neither `0` (exited) nor `0x7f` (stopped). -/

def wIfExited (w : Nat) : Bool := w % 128 == 0

def wExitStatus (w : Nat) : Nat := (w / 256) % 256

def wTermSig (w : Nat) : Nat := w % 128

def wIfSignaled (w : Nat) : Bool := (w % 128 != 0) && (w % 128 != 127)

/-- What the launcher does after reaping the child. -/
inductive MainOutcome where
  | exitCode (c : Nat)
  | raiseSignal (s : Nat)
  | fatalError (code : Nat)
deriving DecidableEq, Repr

/-- Tail of `main`: translate the child's wait status into the
launcher's own termination behavior (main.c lines 576-595).  `raise` of
a terminating signal is modelled as the `raiseSignal` outcome. -/
def launcher_wait_outcome (w : Nat) : MainOutcome :=
  if wIfExited w then MainOutcome.exitCode (wExitStatus w)
  else if wIfSignaled w then MainOutcome.raiseSignal (wTermSig w)
  else MainOutcome.fatalError 2

/-! ## The xz pull-based read adapter (`xz_read`, main.c lines 208-235)

The xz decoder itself is an external collaborator (the vendored xz
library, not part of `src/`). -/

/-- Return codes of `xz_dec_run` (enum `xz_ret`). -/
inductive XzRet where
  | ok
  | streamEnd
  | unsupportedCheck
  | memError
  | memlimitError
  | formatError
  | optionsError
  | dataError
  | bufError
deriving DecidableEq, Repr

/-- Decoder state: the decompressed bytes not yet emitted (`rem`), an
upper bound `burst` on how many bytes one `xz_dec_run` call emits
(modelling that a streaming decoder may stop at internal block
boundaries), and `fail`, which when set makes every run return that
code (modelling corrupt input). -/
structure XzSt where
  rem : List Nat
  burst : Nat
  fail : Option XzRet
deriving DecidableEq, Repr

/-- Modelled from the spec: the streaming decompressor `xz_dec_run`
(external xz library; spec 4.2).  Given `space` free bytes in the output
buffer it emits up to `min burst space` pending bytes and returns
`XZ_OK` while output remains, or `XZ_STREAM_END` once the whole stream
(whose compressed form, footer included, is entirely in memory) has been
emitted - also when that happens in the very call that fills the buffer. -/
def xz_dec_run (s : XzSt) (space : Nat) : XzSt × List Nat × XzRet :=
  match s.fail with
  | some r => (s, [], r)
  | none =>
    let k := min s.burst (min s.rem.length space)
    let out := s.rem.take k
    let rem2 := s.rem.drop k
    (⟨rem2, s.burst, none⟩, out, if rem2 = [] then XzRet.streamEnd else XzRet.ok)

/-- Result of one `xz_read` call: the returned count together with the
bytes sitting in the caller's buffer, or the fatal `error(2, ...)` exit. -/
inductive ReadResult where
  | bytes (ret : Nat) (buf : List Nat)
  | fatal (code : Nat)
deriving DecidableEq, Repr

/-- The `while (out_pos != out_size)` loop of `xz_read`, with explicit
fuel; `none` marks non-termination (a decoder that never makes progress
nor signals an end, cf. the spec's open question in section 9). -/
def xz_read_loop : Nat → XzSt → List Nat → Nat → Option (XzSt × ReadResult)
  | 0, _, _, _ => none
  | Nat.succ fuel, s, acc, len =>
    if acc.length = len then some (s, ReadResult.bytes len acc)
    else
      match xz_dec_run s (len - acc.length) with
      | (s2, out, r) =>
        match r with
        | XzRet.ok => xz_read_loop fuel s2 (acc ++ out) len
        | XzRet.streamEnd => some (s2, ReadResult.bytes 0 (acc ++ out))
        | _ => some (s2, ReadResult.fatal 2)

/-- The routine `xz_read` (main.c lines 208-235): fill the caller's `len`-byte
buffer from the decoder, returning `len` on a full buffer, `0` at
`XZ_STREAM_END`, and exiting fatally on any other decoder result.
`len + 1` loop iterations always suffice, since every `XZ_OK` iteration
emits at least one byte when the decoder makes progress. -/
def xz_read (s : XzSt) (len : Nat) : Option (XzSt × ReadResult) :=
  xz_read_loop (len + 1) s [] len

/-- Bytes actually delivered to the caller by one `xz_read` call: a `0`
return means end-of-file, so the caller consumes nothing. -/
def deliveredBytes (res : ReadResult) : List Nat :=
  match res with
  | ReadResult.bytes n buf => if n = 0 then [] else buf
  | ReadResult.fatal _ => []

/-- Drive `xz_read` with a sequence of pull sizes, concatenating the
bytes delivered to the caller, stopping at the first `0` (EOF) return -
exactly how the tar extractor consumes the adapter. -/
def xz_read_seq : XzSt → List Nat → List Nat
  | _, [] => []
  | s, n :: ns =>
    match xz_read s n with
    | some (s2, ReadResult.bytes m buf) =>
      if m = 0 then [] else buf ++ xz_read_seq s2 ns
    | _ => []

/-! ## Patch-level ELF model (`set_interp`, `set_rpath`, `patch_prog_paths`)

This level works with the program/section header tables already decoded
(the raw decoding, including its missing bounds checks, is modelled
separately below), plus the raw mapped bytes `buf` for everything the
patch operations read or write through computed offsets: the interpreter
segment, the dynamic table and the dynamic string table. -/

/-- The fields of an `Elf64_Phdr` that the bootloader uses. -/
structure Phdr where
  p_type : Nat
  p_offset : Nat
  p_filesz : Nat
deriving DecidableEq, Repr

/-- The fields of an `Elf64_Shdr` that the patch operations use. -/
structure Shdr where
  sh_offset : Nat
  sh_size : Nat
deriving DecidableEq, Repr

/-- A section header together with its (already resolved) name. -/
structure NamedShdr where
  name : String
  hdr : Shdr
deriving DecidableEq, Repr

/-- A writable mapping of the target ELF with its decoded tables. -/
structure Image where
  buf : List Nat
  phdrs : List Phdr
  shdrs : List NamedShdr
deriving DecidableEq, Repr

def PT_INTERP : Nat := 3

def DT_NULL : Nat := 0

def DT_RPATH : Nat := 15

/-- The linear scan of `elf_get_proghdr_by_type` (first match wins). -/
def findPhdrByType (phdrs : List Phdr) (ptype : Nat) : Option Phdr :=
  phdrs.find? (fun ph => ph.p_type == ptype)

/-- The linear scan of `elf_get_section_by_name` (first match wins). -/
def findSectionByName (shdrs : List NamedShdr) (nm : String) : Option Shdr :=
  (shdrs.find? (fun s => s.name == nm)).map (fun s => s.hdr)

/-- Unsigned `size_t` subtraction by one: `n - 1` wraps to `2^64 - 1` at `n = 0`,
exactly as `interp_size - 1` does in C. -/
def wrapSub1 (n : Nat) : Nat :=
  if n = 0 then 2 ^ 64 - 1 else n - 1

/-- Index of the byte inspected by `set_interp`'s NUL-termination check:
`interp[interp_size - 1]`, i.e. `p_offset + (p_filesz - 1)` with `size_t`
arithmetic. -/
def interpNulIdx (ph : Phdr) : Nat :=
  ph.p_offset + wrapSub1 ph.p_filesz

/-- The routine `set_interp` (main.c lines 287-309): locate `PT_INTERP`, require the
current interpreter field to end in NUL, require the new path to fit
(`strlen(new_interp) > interp_size - 1` is fatal), then `strcpy` it over
the field. -/
def set_interp (img : Image) (new_interp : List Nat) : COut (List Nat) :=
  match findPhdrByType img.phdrs PT_INTERP with
  | none => COut.fatal "Failed to find PT_INTERP header"
  | some ph =>
    match readByte img.buf (interpNulIdx ph) with
    | none => COut.oob
    | some b =>
      if b ≠ 0 then COut.fatal "Current INTERP not NUL terminated"
      else if cstrlen new_interp > wrapSub1 ph.p_filesz then
        COut.fatal "Current INTERP too small"
      else
        match writeBytes img.buf ph.p_offset (cstrBytes new_interp) with
        | none => COut.oob
        | some buf2 => COut.ok buf2

/-- Outcome of the dynamic-table walk in `set_rpath`: the `d_val` of the
last `DT_RPATH` entry seen (if any), or an out-of-bounds entry access. -/
inductive ScanOut where
  | found (val : Option Nat)
  | oob
deriving DecidableEq, Repr

/-- The `for (i = 0; i < ndyn; i++)` walk of `set_rpath` (main.c lines
345-364): read `Elf64_Dyn` records (16 bytes: `d_tag` then `d_un.d_val`)
at `off + 16*i`, stop at `DT_NULL`, remember the last `DT_RPATH` value.
Arguments after `off` are the remaining entry count, the current index,
and the `dt_rpath` accumulator. -/
def scanDynAux (buf : List Nat) (off : Nat) : Nat → Nat → Option Nat → ScanOut
  | 0, _, acc => ScanOut.found acc
  | Nat.succ n, i, acc =>
    match readU64 buf (off + 16 * i), readU64 buf (off + 16 * i + 8) with
    | some tag, some dval =>
      if tag = DT_NULL then ScanOut.found acc
      else scanDynAux buf off n (i + 1) (if tag = DT_RPATH then some dval else acc)
    | _, _ => ScanOut.oob

/-- The routine `set_rpath` (main.c lines 311-391): locate `.dynamic` and `.dynstr`,
walk the dynamic table for the last `DT_RPATH` entry, check its value
against the string-table size (`d_val > dynstrsz` is fatal), compare
`strlen(new_rpath)` against `strlen` of the current string, then `strcpy`
over it.  Note the C source reuses the `.dynamic` message for a missing
`.dynstr` section. -/
def set_rpath (img : Image) (new_rpath : List Nat) : COut (List Nat) :=
  match findSectionByName img.shdrs ".dynamic" with
  | none => COut.fatal "Failed to find .dynamic section"
  | some dyn_sh =>
    match findSectionByName img.shdrs ".dynstr" with
    | none => COut.fatal "Failed to find .dynamic section"
    | some dynstr_sh =>
      match scanDynAux img.buf dyn_sh.sh_offset (dyn_sh.sh_size / 16) 0 none with
      | ScanOut.oob => COut.oob
      | ScanOut.found none => COut.fatal "Couldn't find DT_RPATH tag"
      | ScanOut.found (some dval) =>
        if dval > dynstr_sh.sh_size then COut.fatal "RPATH outside of dynamic strtab!"
        else
          match cstrlenAt img.buf (dynstr_sh.sh_offset + dval) with
          | none => COut.oob
          | some rlen =>
            if cstrlen new_rpath > rlen then COut.fatal "Current RPATH too small"
            else
              match writeBytes img.buf (dynstr_sh.sh_offset + dval) (cstrBytes new_rpath) with
              | none => COut.oob
              | some buf2 => COut.ok buf2

/-- Outcome of `patch_prog_paths`, carrying the state of the mapped
bytes at the moment the process exits (the `mmap`ed file keeps whatever
was written before a fatal `error(2, ...)`). -/
inductive POut where
  | ok (buf : List Nat)
  | fatal (msg : String) (buf : List Nat)
  | oob
deriving DecidableEq, Repr

/-- The routine `patch_prog_paths` (main.c lines 394-409): `set_interp` then
`set_rpath` on the same writable mapping. -/
def patch_prog_paths (img : Image) (new_interp new_rpath : List Nat) : POut :=
  match set_interp img new_interp with
  | COut.fatal m => POut.fatal m img.buf
  | COut.oob => POut.oob
  | COut.ok buf1 =>
    match set_rpath { img with buf := buf1 } new_rpath with
    | COut.fatal m => POut.fatal m buf1
    | COut.oob => POut.oob
    | COut.ok buf2 => POut.ok buf2

/-! ## Raw-buffer ELF lookups (`elf_get_proghdr_by_type`, `elf_get_section`)

This level models the lookup helpers exactly at the byte level, with the
ELF header fields given (the `Elf_Ehdr` struct the C code reads them
from), tracking every dereference of a file-derived offset.  Field
offsets inside the on-disk records: `Elf64_Phdr` is 56 bytes with
`p_type` at offset 0; `Elf64_Shdr` is 64 bytes with `sh_name` at 0,
`sh_type` at 4 and `sh_offset` at 24. -/

/-- The `Elf64_Ehdr` fields the lookup helpers read. -/
structure Ehdr where
  e_phoff : Nat
  e_phentsize : Nat
  e_phnum : Nat
  e_shoff : Nat
  e_shentsize : Nat
  e_shnum : Nat
  e_shstrndx : Nat
deriving DecidableEq, Repr

/-- Equality test `strcmp(buf + idx, nm) == 0` with `strcmp`'s access pattern: compare
byte by byte, stopping at the first difference; `none` models the scan
running off the end of the mapping (`nm` is a NUL-free literal). -/
def cstrEqAt (buf : List Nat) : Nat → List Nat → Option Bool
  | idx, [] =>
    match readByte buf idx with
    | none => none
    | some b => some (b == 0)
  | idx, c :: cs =>
    match readByte buf idx with
    | none => none
    | some b => if b = c then cstrEqAt buf (idx + 1) cs else some false

/-- The scan loop of `elf_get_proghdr_by_type`: read `p_type` of entry
`i` (a `u32` at `phoff + 56*i`) and return the entry's file offset on a
match.  Arguments are the current index and the remaining entry count. -/
def phdrScan (buf : List Nat) (phoff ptype : Nat) : Nat → Nat → COut (Option Nat)
  | _, 0 => COut.ok none
  | i, Nat.succ n =>
    match readU32 buf (phoff + 56 * i) with
    | none => COut.oob
    | some t =>
      if t = ptype then COut.ok (some (phoff + 56 * i))
      else phdrScan buf phoff ptype (i + 1) n

/-- The routine `elf_get_proghdr_by_type` (main.c lines 61-79): the only validation
is `e_phentsize == sizeof(Elf_Phdr)`; `e_phoff` and `e_phnum` are used
unchecked.  Returns the matching entry's file offset. -/
def elf_get_proghdr_by_type (e : Ehdr) (buf : List Nat) (ptype : Nat) : COut (Option Nat) :=
  if e.e_phentsize ≠ 56 then COut.fatal "ELF file disagrees with program header size"
  else phdrScan buf e.e_phoff ptype 0 e.e_phnum

/-- The section scan loop of `elf_get_section`: for entry `i` read its
`sh_name` (a `u32` at `shoff + 64*i`), then compare the string at
`strtabOff + sh_name` against `lookupName` (if given), then compare
`sh_type` (a `u32` at `shoff + 64*i + 4`) against `lookupType` (if
given, i.e. not `SHT_NOT_USED`). -/
def shdrScan (buf : List Nat) (shoff strtabOff : Nat) (lookupName : Option (List Nat))
    (lookupType : Option Nat) : Nat → Nat → COut (Option Nat)
  | _, 0 => COut.ok none
  | i, Nat.succ n =>
    match readU32 buf (shoff + 64 * i) with
    | none => COut.oob
    | some nameOff =>
      let byType : COut (Option Nat) :=
        match lookupType with
        | some ty =>
          match readU32 buf (shoff + 64 * i + 4) with
          | none => COut.oob
          | some t =>
            if t = ty then COut.ok (some (shoff + 64 * i))
            else shdrScan buf shoff strtabOff lookupName lookupType (i + 1) n
        | none => shdrScan buf shoff strtabOff lookupName lookupType (i + 1) n
      match lookupName with
      | some nm =>
        match cstrEqAt buf (strtabOff + nameOff) nm with
        | none => COut.oob
        | some true => COut.ok (some (shoff + 64 * i))
        | some false => byType
      | none => byType

/-- The routine `elf_get_section` (main.c lines 83-122).  The C code dereferences
`sh_strtab->sh_offset` (a `u64` at `e_shoff + 64*e_shstrndx + 24`,
line 93) before the `e_shentsize` sanity check (line 96); neither
`e_shoff`, `e_shstrndx`, the string-table offset nor any `sh_name` is
validated against the mapping's length. -/
def elf_get_section (e : Ehdr) (buf : List Nat) (lookupName : Option (List Nat))
    (lookupType : Option Nat) : COut (Option Nat) :=
  match readU64 buf (e.e_shoff + 64 * e.e_shstrndx + 24) with
  | none => COut.oob
  | some strtabOff =>
    if e.e_shentsize ≠ 64 then COut.fatal "ELF file disagrees with section size"
    else shdrScan buf e.e_shoff strtabOff lookupName lookupType 0 e.e_shnum

/-! ## Spec-side view of the dynamic table (for the refinement claims)

These definitions follow the specification's words ("yields the dynamic
table as a sequence of (tag, value) pairs bounded by the `.dynamic`
section size divided by entry size; stops early at a terminating tag";
the selected entry is the last `DT_RPATH` before that point) and are
compared against the code-side walk `scanDynAux`. -/

/-- Read `n` consecutive `(d_tag, d_un.d_val)` pairs starting at entry
index `i`; `none` if any record is out of range. -/
def readDynEntriesFrom (buf : List Nat) (off : Nat) : Nat → Nat → Option (List (Nat × Nat))
  | _, 0 => some []
  | i, Nat.succ n =>
    match readU64 buf (off + 16 * i), readU64 buf (off + 16 * i + 8) with
    | some t, some v => (readDynEntriesFrom buf off (i + 1) n).map (fun es => (t, v) :: es)
    | _, _ => none

/-- The whole dynamic table as (tag, value) pairs: `sh_size / 16` records
from the start of the section. -/
def readDynEntries (buf : List Nat) (off n : Nat) : Option (List (Nat × Nat)) :=
  readDynEntriesFrom buf off 0 n

/-- Spec-side selection: truncate the entry sequence at the first
`DT_NULL`, and among the `DT_RPATH` entries before that point pick the
last one's value. -/
def specLastRpath (es : List (Nat × Nat)) : Option Nat :=
  (((es.takeWhile (fun en => en.1 != DT_NULL)).reverse.find?
      (fun en => en.1 == DT_RPATH)).map (fun en => en.2))

/-! ## Concrete example images used in counterexamples and witnesses -/

/-- A well-formed tiny image: interpreter field `"ABCDEFG\0"` (capacity 8)
at offset 0; dynamic table at offset 8 (32 bytes: a `DT_RPATH -> 0`
entry, then `DT_NULL`); `.dynstr` at offset 40 holding `"ab\0\0"`. -/
def imgPatchPair : Image :=
  { buf := [65, 66, 67, 68, 69, 70, 71, 0] ++ [15, 0, 0, 0, 0, 0, 0, 0] ++
      List.replicate 8 0 ++ List.replicate 16 0 ++ [97, 98, 0, 0]
  , phdrs := [⟨3, 0, 8⟩]
  , shdrs := [⟨".dynamic", ⟨8, 32⟩⟩, ⟨".dynstr", ⟨40, 4⟩⟩] }

/-- The bytes of `imgPatchPair` after `set_interp` has written `"NI\0"`. -/
def bufPatchPair1 : List Nat :=
  [78, 73, 0, 68, 69, 70, 71, 0] ++ [15, 0, 0, 0, 0, 0, 0, 0] ++
    List.replicate 8 0 ++ List.replicate 16 0 ++ [97, 98, 0, 0]

/-- An image whose `DT_RPATH` value (2) equals the `.dynstr` size (2):
the string table holds `"a\0"` and the bytes just past it are `"bc\0\0"`,
still inside the mapping. -/
def imgRpathEdge : Image :=
  { buf := List.replicate 8 0 ++ ([15, 0, 0, 0, 0, 0, 0, 0] ++ [2, 0, 0, 0, 0, 0, 0, 0]) ++
      List.replicate 16 0 ++ [97, 0] ++ [98, 99, 0, 0]
  , phdrs := []
  , shdrs := [⟨".dynamic", ⟨8, 32⟩⟩, ⟨".dynstr", ⟨40, 2⟩⟩] }

/-- The bytes of `imgRpathEdge` after `set_rpath` wrote `"h\0"` one byte past
the end of the dynamic string table. -/
def bufRpathEdgeAfter : List Nat :=
  List.replicate 8 0 ++ ([15, 0, 0, 0, 0, 0, 0, 0] ++ [2, 0, 0, 0, 0, 0, 0, 0]) ++
    List.replicate 16 0 ++ [97, 0] ++ [104, 0, 0, 0]

/-- Like `imgRpathEdge` but with `DT_RPATH` value 3, strictly greater
than the `.dynstr` size 2. -/
def imgRpathGt : Image :=
  { buf := List.replicate 8 0 ++ ([15, 0, 0, 0, 0, 0, 0, 0] ++ [3, 0, 0, 0, 0, 0, 0, 0]) ++
      List.replicate 16 0 ++ [97, 0] ++ [98, 99, 0, 0]
  , phdrs := []
  , shdrs := [⟨".dynamic", ⟨8, 32⟩⟩, ⟨".dynstr", ⟨40, 2⟩⟩] }

/-- A minimal image for exercising `set_interp`: interpreter field
`"AB C\0"`-like, 4 bytes `[65, 66, 67, 0]`, `PT_INTERP` at offset 0. -/
def imgInterpW : Image :=
  { buf := [65, 66, 67, 0], phdrs := [⟨3, 0, 4⟩], shdrs := [] }

/-- An image whose `PT_INTERP` entry records `p_filesz = 0`. -/
def imgFileszZero : Image :=
  { buf := [0, 0, 0, 0], phdrs := [⟨3, 0, 0⟩], shdrs := [] }

/-- An ELF header whose section-header table offset (100) lies far past
the end of a 4-byte mapping, with a plausible entry size. -/
def ehdrShOut : Ehdr := ⟨0, 56, 1, 100, 64, 1, 0⟩

/-- An ELF header whose program-header table offset (100) lies past the
end of a 4-byte mapping. -/
def ehdrPhOut : Ehdr := ⟨100, 56, 1, 0, 64, 0, 0⟩

/-- A 4-byte mapping: just the ELF magic. -/
def bufTiny : List Nat := [127, 69, 76, 70]

/-- The section name `".staticx.archive"` as bytes. -/
def archiveNameBytes : List Nat :=
  [46, 115, 116, 97, 116, 105, 99, 120, 46, 97, 114, 99, 104, 105, 118, 101]

/-- An image whose dynamic table is a single `DT_NULL` entry: no
`DT_RPATH` exists. -/
def imgNoRpath : Image :=
  { buf := List.replicate 8 0 ++ List.replicate 16 0 ++ [97, 0]
  , phdrs := []
  , shdrs := [⟨".dynamic", ⟨8, 16⟩⟩, ⟨".dynstr", ⟨24, 2⟩⟩] }

/-! ## Helper lemmas -/

theorem writeBytes_eq (buf bs : List Nat) (off : Nat) (h : off + bs.length ≤ buf.length) :
    writeBytes buf off bs = some (buf.take off ++ bs ++ buf.drop (off + bs.length)) := by
  simp [writeBytes, h]

theorem writeBytes_length (buf bs : List Nat) (off : Nat) (h : off + bs.length ≤ buf.length) :
    (buf.take off ++ bs ++ buf.drop (off + bs.length)).length = buf.length := by
  simp only [List.length_append, List.length_take, List.length_drop]
  omega

theorem sliceAt_writeBytes (buf bs : List Nat) (off : Nat) (h : off + bs.length ≤ buf.length) :
    sliceAt (buf.take off ++ bs ++ buf.drop (off + bs.length)) off bs.length = bs := by
  have hlen : (buf.take off).length = off := by
    rw [List.length_take]; omega
  unfold sliceAt
  rw [List.append_assoc, List.drop_left' hlen, List.take_left' rfl]

theorem takeWhile_no_nul (s : List Nat) (hz : ∀ b ∈ s, b ≠ 0) :
    s.takeWhile (fun b => b != 0) = s := by
  induction s with
  | nil => rfl
  | cons a l ih =>
    have ha : (a != 0) = true := by simpa using hz a (by simp)
    simp only [List.takeWhile_cons, ha, if_true]
    rw [ih (fun b hb => hz b (by simp [hb]))]

theorem cstrlen_of_no_nul (s : List Nat) (hz : ∀ b ∈ s, b ≠ 0) : cstrlen s = s.length := by
  unfold cstrlen
  rw [takeWhile_no_nul s hz]

theorem cstrBytes_of_no_nul (s : List Nat) (hz : ∀ b ∈ s, b ≠ 0) : cstrBytes s = s ++ [0] := by
  unfold cstrBytes
  rw [takeWhile_no_nul s hz]

theorem xz_dec_run_fail (s : XzSt) (space : Nat) (r : XzRet) (hs : s.fail = some r) :
    xz_dec_run s space = (s, [], r) := by
  unfold xz_dec_run
  rw [hs]

theorem xz_dec_run_none (s : XzSt) (space : Nat) (hs : s.fail = none) :
    xz_dec_run s space =
      (⟨s.rem.drop (min s.burst (min s.rem.length space)), s.burst, none⟩,
       s.rem.take (min s.burst (min s.rem.length space)),
       if s.rem.drop (min s.burst (min s.rem.length space)) = [] then XzRet.streamEnd
       else XzRet.ok) := by
  unfold xz_dec_run
  rw [hs]

theorem xz_read_loop_ret_cases : ∀ (fuel : Nat) (s : XzSt) (acc : List Nat) (len : Nat)
    (s2 : XzSt) (n : Nat) (buf : List Nat),
    xz_read_loop fuel s acc len = some (s2, ReadResult.bytes n buf) → n = 0 ∨ n = len := by
  intro fuel
  induction fuel with
  | zero =>
    intro s acc len s2 n buf h
    simp [xz_read_loop] at h
  | succ fuel ih =>
    intro s acc len s2 n buf h
    unfold xz_read_loop at h
    by_cases hacc : acc.length = len
    · simp only [hacc, if_true] at h
      obtain ⟨-, h2⟩ := Prod.mk.injEq .. ▸ Option.some.inj h
      right
      exact (ReadResult.bytes.injEq .. ▸ h2).1.symm
    · simp only [hacc, if_false] at h
      rcases hrun : xz_dec_run s (len - acc.length) with ⟨s3, out, r⟩
      rw [hrun] at h
      cases r with
      | ok => exact ih s3 (acc ++ out) len s2 n buf h
      | streamEnd =>
        obtain ⟨-, h2⟩ := Prod.mk.injEq .. ▸ Option.some.inj h
        left
        exact (ReadResult.bytes.injEq .. ▸ h2).1.symm
      | unsupportedCheck => simp at h
      | memError => simp at h
      | memlimitError => simp at h
      | formatError => simp at h
      | optionsError => simp at h
      | dataError => simp at h
      | bufError => simp at h

theorem xz_read_loop_outcomes : ∀ (fuel : Nat) (s : XzSt) (acc : List Nat) (len : Nat),
    (s.fail = none → 1 ≤ s.burst) → s.fail ≠ some XzRet.ok →
    acc.length ≤ len → len - acc.length < fuel →
    ∃ s2 res, xz_read_loop fuel s acc len = some (s2, res) ∧
      ((∃ buf, res = ReadResult.bytes len buf ∧ buf.length = len) ∨
       (∃ buf, res = ReadResult.bytes 0 buf) ∨
       (res = ReadResult.fatal 2 ∧
         ∃ r, s.fail = some r ∧ r ≠ XzRet.ok ∧ r ≠ XzRet.streamEnd)) := by
  intro fuel
  induction fuel with
  | zero =>
    intro s acc len _ _ _ hlt
    omega
  | succ fuel ih =>
    intro s acc len h1 h2 hle hlt
    by_cases hacc : acc.length = len
    · refine ⟨s, ReadResult.bytes len acc, ?_, Or.inl ⟨acc, rfl, hacc⟩⟩
      unfold xz_read_loop
      simp [hacc]
    · cases hs : s.fail with
      | some r =>
        have hr : r ≠ XzRet.ok := by
          intro h
          exact h2 (by rw [hs, h])
        cases r
        · exact absurd rfl hr
        · refine ⟨s, ReadResult.bytes 0 acc, ?_, Or.inr (Or.inl ⟨acc, rfl⟩)⟩
          unfold xz_read_loop
          simp [hacc, xz_dec_run_fail s _ _ hs]
        all_goals
          exact ⟨s, ReadResult.fatal 2,
            by unfold xz_read_loop; simp [hacc, xz_dec_run_fail s _ _ hs],
            Or.inr (Or.inr ⟨rfl, _, rfl, by decide, by decide⟩)⟩
      | none =>
        have hb : 1 ≤ s.burst := h1 hs
        have hsp : 1 ≤ len - acc.length := by omega
        set k := min s.burst (min s.rem.length (len - acc.length)) with hk
        by_cases hrem : s.rem.drop k = []
        · refine ⟨⟨s.rem.drop k, s.burst, none⟩, ReadResult.bytes 0 (acc ++ s.rem.take k),
            ?_, Or.inr (Or.inl ⟨acc ++ s.rem.take k, rfl⟩)⟩
          unfold xz_read_loop
          simp [hacc, xz_dec_run_none s _ hs, ← hk, hrem]
        · have hrnil : s.rem ≠ [] := by
            intro h
            exact hrem (by simp [h])
          have hrl : 1 ≤ s.rem.length := List.length_pos.mpr hrnil
          have hkpos : 1 ≤ k := by omega
          have hkr : k ≤ s.rem.length := by omega
          have hlacc : (acc ++ s.rem.take k).length = acc.length + k := by
            simp [List.length_take, Nat.min_eq_left hkr]
          obtain ⟨s2, res, heq, hres⟩ :=
            ih ⟨s.rem.drop k, s.burst, none⟩ (acc ++ s.rem.take k) len
              (fun _ => hb) (by simp) (by rw [hlacc]; omega) (by rw [hlacc]; omega)
          refine ⟨s2, res, ?_, ?_⟩
          · unfold xz_read_loop
            simp only [hacc, if_false, xz_dec_run_none s _ hs, ← hk, hrem, if_neg hrem]
            exact heq
          · rcases hres with h | h | h
            · exact Or.inl h
            · exact Or.inr (Or.inl h)
            · rcases h with ⟨-, r, hfr, -⟩
              exact absurd hfr (by simp)

theorem xz_read_loop_fill : ∀ (fuel : Nat) (s : XzSt) (acc : List Nat) (len : Nat),
    s.fail = none → 1 ≤ s.burst → acc.length ≤ len → len - acc.length < fuel →
    len - acc.length < s.rem.length →
    xz_read_loop fuel s acc len =
      some (⟨s.rem.drop (len - acc.length), s.burst, none⟩,
            ReadResult.bytes len (acc ++ s.rem.take (len - acc.length))) := by
  intro fuel
  induction fuel with
  | zero =>
    intro s acc len _ _ _ hlt _
    omega
  | succ fuel ih =>
    intro s acc len hs hb hle hlt hrem
    by_cases hacc : acc.length = len
    · obtain ⟨rem, burst, fail⟩ := s
      simp only at hs
      subst hs
      unfold xz_read_loop
      simp [hacc]
    · have hsp : 1 ≤ len - acc.length := by omega
      set k := min s.burst (min s.rem.length (len - acc.length)) with hk
      have hks : k ≤ len - acc.length := by omega
      have hkr : k < s.rem.length := by omega
      have hkpos : 1 ≤ k := by omega
      have hdrop : s.rem.drop k ≠ [] := by
        intro h
        have := congrArg List.length h
        simp [List.length_drop] at this
        omega
      have hlacc : (acc ++ s.rem.take k).length = acc.length + k := by
        simp [List.length_take, Nat.min_eq_left (Nat.le_of_lt hkr)]
      have hres := ih ⟨s.rem.drop k, s.burst, none⟩ (acc ++ s.rem.take k) len
        rfl hb (by rw [hlacc]; omega) (by rw [hlacc]; omega)
        (by simp only [hlacc, List.length_drop]; omega)
      unfold xz_read_loop
      simp only [hacc, if_false, xz_dec_run_none s _ hs, ← hk, if_neg hdrop]
      rw [hres]
      have h1 : (s.rem.drop k).drop (len - (acc ++ s.rem.take k).length) =
          s.rem.drop (len - acc.length) := by
        rw [List.drop_drop, hlacc]
        congr 1
        omega
      have h2 : (acc ++ s.rem.take k) ++ (s.rem.drop k).take (len - (acc ++ s.rem.take k).length) =
          acc ++ s.rem.take (len - acc.length) := by
        rw [List.append_assoc, hlacc]
        congr 1
        have : len - acc.length = k + (len - acc.length - k) := by omega
        rw [this, List.take_add]
        congr 2
        omega
      rw [h1, h2]

theorem xz_read_loop_eos : ∀ (fuel : Nat) (s : XzSt) (acc : List Nat) (len : Nat),
    s.fail = none → 1 ≤ s.burst → acc.length < len →
    s.rem.length ≤ len - acc.length → len - acc.length < fuel →
    xz_read_loop fuel s acc len =
      some (⟨[], s.burst, none⟩, ReadResult.bytes 0 (acc ++ s.rem)) := by
  intro fuel
  induction fuel with
  | zero =>
    intro s acc len _ _ _ _ hlt
    omega
  | succ fuel ih =>
    intro s acc len hs hb hacc hrle hlt
    have haccne : acc.length ≠ len := by omega
    set k := min s.burst (min s.rem.length (len - acc.length)) with hk
    have hkr : k ≤ s.rem.length := by omega
    by_cases hdrop : s.rem.drop k = []
    · have hlenk : s.rem.length ≤ k := by
        have := congrArg List.length hdrop
        simp [List.length_drop] at this
        omega
      have hkeq : k = s.rem.length := by omega
      unfold xz_read_loop
      simp only [haccne, if_false, xz_dec_run_none s _ hs, ← hk]
      rw [if_pos hdrop, hdrop, hkeq, List.take_length]
    · have hrl : 1 ≤ s.rem.length := by
        rcases Nat.eq_zero_or_pos s.rem.length with h | h
        · exact absurd (List.eq_nil_of_length_eq_zero h) (by
            intro hnil
            exact hdrop (by simp [hnil]))
        · exact h
      have hkpos : 1 ≤ k := by omega
      have hklt : k < s.rem.length := by
        rcases Nat.lt_or_ge k s.rem.length with h | h
        · exact h
        · exact absurd (List.drop_eq_nil_of_le h) hdrop
      have hlacc : (acc ++ s.rem.take k).length = acc.length + k := by
        simp [List.length_take, Nat.min_eq_left hkr]
      have hres := ih ⟨s.rem.drop k, s.burst, none⟩ (acc ++ s.rem.take k) len
        rfl hb (by rw [hlacc]; simp only [List.length_drop] at *; omega)
        (by simp only [List.length_drop, hlacc]; omega)
        (by rw [hlacc]; omega)
      unfold xz_read_loop
      simp only [haccne, if_false, xz_dec_run_none s _ hs, ← hk, if_neg hdrop]
      rw [hres, List.append_assoc, List.take_append_drop]

theorem xz_read_fill (s : XzSt) (len : Nat) (hf : s.fail = none) (hb : 1 ≤ s.burst)
    (h : len < s.rem.length) :
    xz_read s len =
      some (⟨s.rem.drop len, s.burst, none⟩, ReadResult.bytes len (s.rem.take len)) := by
  have := xz_read_loop_fill (len + 1) s [] len hf hb
    (by simp only [List.length_nil]; omega)
    (by simp only [List.length_nil]; omega)
    (by simp only [List.length_nil, Nat.sub_zero]; exact h)
  simpa [xz_read] using this

theorem xz_read_eos (s : XzSt) (len : Nat) (hf : s.fail = none) (hb : 1 ≤ s.burst)
    (h0 : 1 ≤ len) (h : s.rem.length ≤ len) :
    xz_read s len = some (⟨[], s.burst, none⟩, ReadResult.bytes 0 s.rem) := by
  have := xz_read_loop_eos (len + 1) s [] len hf hb
    (by simp only [List.length_nil]; omega)
    (by simp only [List.length_nil, Nat.sub_zero]; exact h)
    (by simp only [List.length_nil]; omega)
  simpa [xz_read] using this

/-! ## Claim theorems -/

/-- Claim C3: the launcher's wait-status translation is total over every
child wait status `w`: whenever `WIFEXITED w` holds, `main` returns
exactly `WEXITSTATUS w`, the child's exit code; whenever `WIFSIGNALED w`
holds - including statuses with the core-dump bit `0x80` set, such as
139 for a SIGSEGV that dumped core - the launcher raises `WTERMSIG w`,
that same signal, against itself rather than exiting with a derived
code; and for any wait status satisfying neither (low seven bits `0x7f`,
a stopped status), it terminates fatally with the internal-failure exit
status 2.  The last two conjuncts instantiate the encodings: `256 * c`
for a normal exit with code `c`, and `s` or `s + 128` (core-dump bit)
for termination by signal `s`. -/
theorem launcher_exit_translation :
    (∀ w : Nat, wIfExited w = true →
       launcher_wait_outcome w = MainOutcome.exitCode (wExitStatus w)) ∧
    (∀ w : Nat, wIfSignaled w = true →
       launcher_wait_outcome w = MainOutcome.raiseSignal (wTermSig w)) ∧
    (∀ w : Nat, wIfExited w = false → wIfSignaled w = false →
       launcher_wait_outcome w = MainOutcome.fatalError 2) ∧
    (∀ c : Nat, c < 256 → launcher_wait_outcome (256 * c) = MainOutcome.exitCode c) ∧
    (∀ s : Nat, 1 ≤ s → s ≤ 126 →
       launcher_wait_outcome s = MainOutcome.raiseSignal s ∧
       launcher_wait_outcome (s + 128) = MainOutcome.raiseSignal s) := by
  refine ⟨fun w h => ?_, fun w h => ?_, fun w h1 h2 => ?_, fun c hc => ?_,
    fun s h1 h2 => ⟨?_, ?_⟩⟩
  · simp [launcher_wait_outcome, h]
  · have h' : w % 128 ≠ 0 ∧ w % 128 ≠ 127 := by
      simpa [wIfSignaled] using h
    have hex : wIfExited w = false := by
      simp [wIfExited, h'.1]
    simp [launcher_wait_outcome, hex, h]
  · simp [launcher_wait_outcome, h1, h2]
  · have hm : wIfExited (256 * c) = true := by
      simp [wIfExited]; omega
    have hd : wExitStatus (256 * c) = c := by
      unfold wExitStatus; omega
    simp [launcher_wait_outcome, hm, hd]
  · have hm : s % 128 = s := Nat.mod_eq_of_lt (by omega)
    have hsig : wIfSignaled s = true := by
      simp [wIfSignaled, hm]; omega
    have hex : wIfExited s = false := by
      simp [wIfExited, hm]; omega
    have ht : wTermSig s = s := by
      simp [wTermSig, hm]
    simp [launcher_wait_outcome, hex, hsig, ht]
  · have hm : (s + 128) % 128 = s := by omega
    have hsig : wIfSignaled (s + 128) = true := by
      simp [wIfSignaled, hm]; omega
    have hex : wIfExited (s + 128) = false := by
      simp [wIfExited, hm]; omega
    have ht : wTermSig (s + 128) = s := by
      simp [wTermSig, hm]
    simp [launcher_wait_outcome, hex, hsig, ht]

/-- Witness for C3 at exit code 42, plain signal 9, the core-dumped
SIGSEGV status 139 = 11 + 128, and a stopped status 127. -/
theorem launcher_exit_translation_witness :
    launcher_wait_outcome (256 * 42) = MainOutcome.exitCode 42 ∧
    launcher_wait_outcome 9 = MainOutcome.raiseSignal 9 ∧
    launcher_wait_outcome (11 + 128) = MainOutcome.raiseSignal 11 ∧
    launcher_wait_outcome 127 = MainOutcome.fatalError 2 :=
  ⟨launcher_exit_translation.2.2.2.1 42 (by decide),
   (launcher_exit_translation.2.2.2.2 9 (by decide) (by decide)).1,
   (launcher_exit_translation.2.2.2.2 11 (by decide) (by decide)).2,
   launcher_exit_translation.2.2.1 127 (by decide) (by decide)⟩

/-- Counterexample to claim C1: on `imgPatchPair` the interpreter field
(capacity 8) takes the new 2-byte interpreter, but the rpath capacity
check then fails; `patch_prog_paths` does exit fatally, yet the mapped
bytes at that point (`bufPatchPair1`) differ from the original - the
interpreter field was already rewritten, a partially patched target. -/
theorem patch_modified_bytes_cex :
    patch_prog_paths imgPatchPair [78, 73] [120, 121, 122] =
      POut.fatal "Current RPATH too small" bufPatchPair1 ∧
    bufPatchPair1 ≠ imgPatchPair.buf := by
  constructor
  · rfl
  · decide

/-- Counterexample to claim C4: with the section-header table offset
(100) and hence the string-table header read far beyond the 4-byte
mapping, `elf_get_section` performs an out-of-bounds access instead of
failing with a fatal malformed-input error; likewise
`elf_get_proghdr_by_type` with a program-header table offset (100) past
the end of the mapping. -/
theorem elf_lookup_oob_cex :
    elf_get_section ehdrShOut bufTiny (some archiveNameBytes) none = COut.oob ∧
    elf_get_proghdr_by_type ehdrPhOut bufTiny 3 = COut.oob := by
  constructor <;> rfl

/-- Counterexample to claim C5: in `imgRpathEdge` the `DT_RPATH` value 2
equals the `.dynstr` size 2, i.e. the offset is not within the table's
bounds, yet `set_rpath` passes its `d_val > dynstrsz` check,
dereferences one byte past the table and writes there, returning
success instead of failing fatally. -/
theorem set_rpath_off_by_one_cex :
    scanDynAux imgRpathEdge.buf 8 2 0 none = ScanOut.found (some 2) ∧
    findSectionByName imgRpathEdge.shdrs ".dynstr" = some ⟨40, 2⟩ ∧
    set_rpath imgRpathEdge [104] = COut.ok bufRpathEdgeAfter := by
  refine ⟨rfl, rfl, rfl⟩

/-- Counterexample to claim C6: over a 3-byte decompressed stream,
pulling in 2-byte chunks delivers `[1, 2]` while a single whole-stream
pull delivers nothing (the decoder signals end-of-stream in the same
call, so `xz_read` returns 0 and the emitted bytes are dropped); the two
chunkings disagree with each other and with the 3-byte stream, refuting
chunking invariance. -/
theorem xz_chunking_cex :
    xz_read_seq ⟨[1, 2, 3], 9, none⟩ [2, 2, 2] = [1, 2] ∧
    xz_read_seq ⟨[1, 2, 3], 9, none⟩ [4] = [] ∧
    XzSt.rem ⟨[1, 2, 3], 9, none⟩ = [1, 2, 3] := by
  refine ⟨rfl, rfl, rfl⟩

/-- Claim C10: `set_interp`'s NUL-termination check reads the byte at
index `p_filesz - 1` of the `PT_INTERP` segment without checking
`p_filesz >= 1` first: whenever `p_filesz >= 1` the inspected index lies
inside the segment, but at `p_filesz = 0` the `size_t` subtraction wraps
and the check inspects index `p_offset + 2^64 - 1`, far outside the
segment - as `set_interp` on `imgFileszZero` shows, an out-of-bounds
access. -/
theorem interp_nul_check_index :
    (∀ ph : Phdr, 1 ≤ ph.p_filesz →
       ph.p_offset ≤ interpNulIdx ph ∧ interpNulIdx ph < ph.p_offset + ph.p_filesz) ∧
    (∀ ph : Phdr, ph.p_filesz = 0 → interpNulIdx ph = ph.p_offset + (2 ^ 64 - 1)) ∧
    set_interp imgFileszZero [65] = COut.oob := by
  refine ⟨fun ph h => ?_, fun ph h => ?_, ?_⟩
  · unfold interpNulIdx wrapSub1
    constructor <;> [omega; skip]
    have : ph.p_filesz ≠ 0 := by omega
    simp [this]
    omega
  · unfold interpNulIdx wrapSub1
    simp [h]
  · rfl

/-- Witness for C10 at `p_filesz = 8` and at `p_filesz = 0`. -/
theorem interp_nul_check_index_witness :
    ((3 : Nat) ≤ interpNulIdx ⟨3, 3, 8⟩ ∧ interpNulIdx ⟨3, 3, 8⟩ < 3 + 8) ∧
    interpNulIdx ⟨3, 5, 0⟩ = 5 + (2 ^ 64 - 1) :=
  ⟨interp_nul_check_index.1 ⟨3, 3, 8⟩ (by decide),
   interp_nul_check_index.2.1 ⟨3, 5, 0⟩ rfl⟩

/-- Claim C2: for every image whose (first) `PT_INTERP` segment has size
`S` with its last byte NUL, `set_interp new_interp` exits fatally when
`len(new_interp) + 1 > S`, and otherwise succeeds, leaving the mapping
the same length (the file never grows) with the first
`len(new_interp) + 1` bytes of the segment now reading back as exactly
`new_interp` followed by a NUL terminator. -/
theorem set_interp_correct (img : Image) (ph : Phdr) (ni : List Nat)
    (hph : findPhdrByType img.phdrs PT_INTERP = some ph)
    (hS : 1 ≤ ph.p_filesz)
    (hin : ph.p_offset + ph.p_filesz ≤ img.buf.length)
    (hnul : readByte img.buf (ph.p_offset + ph.p_filesz - 1) = some 0)
    (hz : ∀ b ∈ ni, b ≠ 0) :
    (ph.p_filesz < ni.length + 1 →
      set_interp img ni = COut.fatal "Current INTERP too small") ∧
    (ni.length + 1 ≤ ph.p_filesz →
      ∃ buf2, set_interp img ni = COut.ok buf2 ∧
        buf2.length = img.buf.length ∧
        sliceAt buf2 ph.p_offset (ni.length + 1) = ni ++ [0]) := by
  have hw : wrapSub1 ph.p_filesz = ph.p_filesz - 1 := by
    unfold wrapSub1
    have : ph.p_filesz ≠ 0 := by omega
    simp [this]
  have hidx : interpNulIdx ph = ph.p_offset + ph.p_filesz - 1 := by
    unfold interpNulIdx
    rw [hw]; omega
  have hlen : cstrlen ni = ni.length := cstrlen_of_no_nul ni hz
  constructor
  · intro hcap
    have hgt : cstrlen ni > wrapSub1 ph.p_filesz := by rw [hlen, hw]; omega
    simp only [set_interp, hph, hidx, hnul]
    simp [hgt]
  · intro hcap
    have hle : ¬ (cstrlen ni > wrapSub1 ph.p_filesz) := by rw [hlen, hw]; omega
    have hbs : cstrBytes ni = ni ++ [0] := cstrBytes_of_no_nul ni hz
    have hwlen : ph.p_offset + (cstrBytes ni).length ≤ img.buf.length := by
      rw [hbs]
      simp only [List.length_append, List.length_cons, List.length_nil]
      omega
    refine ⟨img.buf.take ph.p_offset ++ cstrBytes ni ++
      img.buf.drop (ph.p_offset + (cstrBytes ni).length), ?_, ?_, ?_⟩
    · simp only [set_interp, hph, hidx, hnul]
      simp [hle, writeBytes_eq img.buf (cstrBytes ni) ph.p_offset hwlen]
    · exact writeBytes_length img.buf (cstrBytes ni) ph.p_offset hwlen
    · have := sliceAt_writeBytes img.buf (cstrBytes ni) ph.p_offset hwlen
      rw [hbs] at this ⊢
      simpa using this

/-- Witness for C2 on `imgInterpW` (capacity 4) with the 1-byte
interpreter `[66]`. -/
theorem set_interp_correct_witness :
    ∃ buf2, set_interp imgInterpW [66] = COut.ok buf2 ∧
      buf2.length = imgInterpW.buf.length ∧
      sliceAt buf2 0 2 = [66] ++ [0] := by
  exact (set_interp_correct imgInterpW ⟨3, 0, 4⟩ [66] (by decide) (by decide) (by decide)
    (by decide) (by decide)).2 (by decide)

/-- Claim C5 (amended): `set_rpath` fails fatally, before dereferencing
the offset or writing, for every `DT_RPATH` value strictly greater than
the dynamic string table's size; a value equal to the size passes the
check (see the counterexample for the boundary). -/
theorem set_rpath_strtab_check (img : Image) (nr : List Nat) (dyn_sh dynstr_sh : Shdr)
    (dval : Nat)
    (h1 : findSectionByName img.shdrs ".dynamic" = some dyn_sh)
    (h2 : findSectionByName img.shdrs ".dynstr" = some dynstr_sh)
    (h3 : scanDynAux img.buf dyn_sh.sh_offset (dyn_sh.sh_size / 16) 0 none =
      ScanOut.found (some dval))
    (h4 : dynstr_sh.sh_size < dval) :
    set_rpath img nr = COut.fatal "RPATH outside of dynamic strtab!" := by
  simp only [set_rpath, h1, h2, h3]
  simp [h4]

/-- Witness for C5 (amended) on `imgRpathGt`, whose `DT_RPATH` value 3
exceeds the `.dynstr` size 2. -/
theorem set_rpath_strtab_check_witness :
    set_rpath imgRpathGt [104] = COut.fatal "RPATH outside of dynamic strtab!" :=
  set_rpath_strtab_check imgRpathGt [104] ⟨8, 32⟩ ⟨40, 2⟩ 3 rfl rfl (by rfl) (by decide)

/-- Claim C1 (amended): a capacity failure inside `set_interp` is fatal
with the target's mapped bytes still byte-for-byte the original (its
validation precedes its write); but when `set_interp` succeeds and
`set_rpath` then fails - e.g. on its capacity check - the combined
`patch_prog_paths` exits fatally with the interpreter field already
rewritten, so the mapping is left partially patched (the counterexample
exhibits modified bytes). -/
theorem patch_prog_paths_staged (img : Image) (ni nr : List Nat) :
    (∀ m, set_interp img ni = COut.fatal m →
      patch_prog_paths img ni nr = POut.fatal m img.buf) ∧
    (∀ buf1 m, set_interp img ni = COut.ok buf1 →
      set_rpath { img with buf := buf1 } nr = COut.fatal m →
      patch_prog_paths img ni nr = POut.fatal m buf1) := by
  constructor
  · intro m h
    simp only [patch_prog_paths, h]
  · intro buf1 m h1 h2
    simp only [patch_prog_paths, h1, h2]

/-- Witness for C1 (amended) on `imgPatchPair`: `set_interp` succeeds with
`bufPatchPair1`, `set_rpath` fails its capacity check, and the combined
patch ends fatal with the modified bytes. -/
theorem patch_prog_paths_staged_witness :
    patch_prog_paths imgPatchPair [78, 73] [120, 121, 122] =
      POut.fatal "Current RPATH too small" bufPatchPair1 :=
  (patch_prog_paths_staged imgPatchPair [78, 73] [120, 121, 122]).2
    bufPatchPair1 "Current RPATH too small" (by rfl) (by rfl)

/-- Claim C4 (amended): the only validations in the lookup helpers are
of the header entry sizes (`e_phentsize`, `e_shentsize`), which fail
fatally on mismatch; the table offsets, the string-table index/offset
and the per-entry offsets are dereferenced without any check against
the mapping's length, so an out-of-range value causes an out-of-bounds
access instead of a fatal error - and in `elf_get_section` the
string-table header is read even before the entry-size validation. -/
theorem elf_lookups_unvalidated :
    (∀ (e : Ehdr) (buf : List Nat) (nm : Option (List Nat)) (ty : Option Nat),
       buf.length < e.e_shoff + 64 * e.e_shstrndx + 32 →
       elf_get_section e buf nm ty = COut.oob) ∧
    (∀ (e : Ehdr) (buf : List Nat) (nm : Option (List Nat)) (ty : Option Nat),
       e.e_shoff + 64 * e.e_shstrndx + 32 ≤ buf.length →
       e.e_shentsize ≠ 64 →
       elf_get_section e buf nm ty = COut.fatal "ELF file disagrees with section size") ∧
    (∀ (e : Ehdr) (buf : List Nat) (pt : Nat),
       e.e_phentsize ≠ 56 →
       elf_get_proghdr_by_type e buf pt =
         COut.fatal "ELF file disagrees with program header size") ∧
    (∀ (e : Ehdr) (buf : List Nat) (pt : Nat),
       e.e_phentsize = 56 → 1 ≤ e.e_phnum → buf.length < e.e_phoff + 4 →
       elf_get_proghdr_by_type e buf pt = COut.oob) := by
  refine ⟨fun e buf nm ty h => ?_, fun e buf nm ty h h64 => ?_,
    fun e buf pt h => ?_, fun e buf pt h56 hn h => ?_⟩
  · unfold elf_get_section
    have : ¬ (e.e_shoff + 64 * e.e_shstrndx + 24 + 8 ≤ buf.length) := by omega
    simp [readU64, this]
  · unfold elf_get_section
    have : e.e_shoff + 64 * e.e_shstrndx + 24 + 8 ≤ buf.length := by omega
    simp [readU64, this, h64]
  · unfold elf_get_proghdr_by_type
    simp [h]
  · unfold elf_get_proghdr_by_type
    rw [if_neg (by omega)]
    obtain ⟨n, hn'⟩ : ∃ n, e.e_phnum = n + 1 := ⟨e.e_phnum - 1, by omega⟩
    rw [hn']
    unfold phdrScan
    have : ¬ (e.e_phoff + 56 * 0 + 4 ≤ buf.length) := by omega
    simp [readU32, this]

/-- Witness for C4 (amended) on the concrete tiny mapping `bufTiny`. -/
theorem elf_lookups_unvalidated_witness :
    elf_get_section ehdrShOut bufTiny none none = COut.oob ∧
    elf_get_section ⟨0, 56, 1, 0, 32, 1, 0⟩ (List.replicate 64 0) none none =
      COut.fatal "ELF file disagrees with section size" ∧
    elf_get_proghdr_by_type ⟨0, 32, 1, 0, 64, 0, 0⟩ bufTiny 3 =
      COut.fatal "ELF file disagrees with program header size" ∧
    elf_get_proghdr_by_type ehdrPhOut bufTiny 3 = COut.oob :=
  ⟨elf_lookups_unvalidated.1 ehdrShOut bufTiny none none (by decide),
   elf_lookups_unvalidated.2.1 ⟨0, 56, 1, 0, 32, 1, 0⟩ (List.replicate 64 0) none none
     (by simp) (by decide),
   elf_lookups_unvalidated.2.2.1 ⟨0, 32, 1, 0, 64, 0, 0⟩ bufTiny 3 (by decide),
   elf_lookups_unvalidated.2.2.2 ehdrPhOut bufTiny 3 (by decide) (by decide) (by decide)⟩

/-- Claim C7: each `xz_read` pull request for `len` bytes loops feeding
the decompressor until exactly one of three outcomes: the caller's
buffer is completely filled and the call returns `len`; the decoder
signals logical end-of-stream and the call returns 0; or any other
decoder result terminates the process fatally.  (The hypotheses say the
decoder makes progress when healthy and never reports `XZ_OK`
indefinitely without progress - the open question the spec itself
flags.) -/
theorem xz_read_outcomes (s : XzSt) (len : Nat)
    (h1 : s.fail = none → 1 ≤ s.burst) (h2 : s.fail ≠ some XzRet.ok) :
    ∃ s2 res, xz_read s len = some (s2, res) ∧
      ((∃ buf, res = ReadResult.bytes len buf ∧ buf.length = len) ∨
       (∃ buf, res = ReadResult.bytes 0 buf) ∨
       (res = ReadResult.fatal 2 ∧
         ∃ r, s.fail = some r ∧ r ≠ XzRet.ok ∧ r ≠ XzRet.streamEnd)) :=
  xz_read_loop_outcomes (len + 1) s [] len h1 h2
    (by simp only [List.length_nil]; omega)
    (by simp only [List.length_nil]; omega)

/-- Witness for C7 on a 2-byte stream pulled with a 1-byte request. -/
theorem xz_read_outcomes_witness :
    ∃ s2 res, xz_read ⟨[1, 2], 9, none⟩ 1 = some (s2, res) ∧
      ((∃ buf, res = ReadResult.bytes 1 buf ∧ buf.length = 1) ∨
       (∃ buf, res = ReadResult.bytes 0 buf) ∨
       (res = ReadResult.fatal 2 ∧
         ∃ r, XzSt.fail ⟨[1, 2], 9, none⟩ = some r ∧ r ≠ XzRet.ok ∧ r ≠ XzRet.streamEnd)) :=
  xz_read_outcomes ⟨[1, 2], 9, none⟩ 1 (fun _ => by decide) (by decide)

/-- Claim C9: `xz_read` never returns a positive count smaller than the
request - every successful return is `0` or `len` - and when the decoder
reaches end-of-stream after emitting some but fewer than `len` bytes
into the caller's buffer, the call returns 0, so the emitted trailing
bytes (all of `s.rem`, sitting in the buffer) are reported as
end-of-file and delivered to the caller as nothing. -/
theorem xz_read_no_short_counts :
    (∀ (s : XzSt) (len : Nat) (s2 : XzSt) (n : Nat) (buf : List Nat),
        xz_read s len = some (s2, ReadResult.bytes n buf) → n = 0 ∨ n = len) ∧
    (∀ (s : XzSt) (len : Nat), s.fail = none → 1 ≤ s.burst →
        1 ≤ s.rem.length → s.rem.length < len →
        xz_read s len = some (⟨[], s.burst, none⟩, ReadResult.bytes 0 s.rem) ∧
        deliveredBytes (ReadResult.bytes 0 s.rem) = []) := by
  constructor
  · intro s len s2 n buf h
    exact xz_read_loop_ret_cases (len + 1) s [] len s2 n buf h
  · intro s len hf hb h1 h2
    refine ⟨xz_read_eos s len hf hb (by omega) (by omega), ?_⟩
    simp [deliveredBytes]

/-- Witness for C9: a 3-byte stream pulled with a 5-byte request
returns 0 with the three bytes emitted but undelivered. -/
theorem xz_read_no_short_counts_witness :
    xz_read ⟨[1, 2, 3], 9, none⟩ 5 =
      some (⟨[], 9, none⟩, ReadResult.bytes 0 [1, 2, 3]) ∧
    deliveredBytes (ReadResult.bytes 0 [1, 2, 3]) = [] :=
  xz_read_no_short_counts.2 ⟨[1, 2, 3], 9, none⟩ 5 rfl (by decide) (by decide) (by decide)

/-- Claim C6 (amended): pulling a stream through `xz_read` in chunks
delivers a truncation (`take k`) of the decompressed stream - never
reordered or corrupted bytes - but the bytes emitted during the call in
which the decoder signals end-of-stream are dropped (the call returns
0), so different pull-size sequences may deliver different-length
prefixes and byte-for-byte equality with whole-stream decompression
fails in general (see the counterexample). -/
theorem xz_read_seq_yields_truncated (s : XzSt) (sizes : List Nat)
    (hf : s.fail = none) (hb : 1 ≤ s.burst) (hs : ∀ n ∈ sizes, 1 ≤ n) :
    ∃ k, k ≤ s.rem.length ∧ xz_read_seq s sizes = s.rem.take k := by
  induction sizes generalizing s with
  | nil => exact ⟨0, by omega, by simp [xz_read_seq]⟩
  | cons n ns ih =>
    have hn : 1 ≤ n := hs n (by simp)
    rcases Nat.lt_or_ge n s.rem.length with hlt | hge
    · have hread := xz_read_fill s n hf hb hlt
      obtain ⟨k, hk, hseq⟩ := ih ⟨s.rem.drop n, s.burst, none⟩ rfl hb
        (fun m hm => hs m (List.mem_cons_of_mem _ hm))
      refine ⟨n + k, ?_, ?_⟩
      · simp only [List.length_drop] at hk
        omega
      · unfold xz_read_seq
        rw [hread]
        have hne : ¬ (n = 0) := by omega
        simp only [hne, if_false]
        rw [hseq]
        show s.rem.take n ++ (s.rem.drop n).take k = s.rem.take (n + k)
        exact (List.take_add s.rem n k).symm
    · have hread := xz_read_eos s n hf hb hn hge
      refine ⟨0, by omega, ?_⟩
      unfold xz_read_seq
      rw [hread]
      simp

/-- Witness for C6 (amended): a 3-byte stream pulled in 2-byte chunks
delivers a `take` of the stream. -/
theorem xz_read_seq_yields_truncated_witness :
    ∃ k, k ≤ ([5, 6, 7] : List Nat).length ∧
      xz_read_seq ⟨[5, 6, 7], 9, none⟩ [2, 2] = ([5, 6, 7] : List Nat).take k := by
  exact xz_read_seq_yields_truncated ⟨[5, 6, 7], 9, none⟩ [2, 2] rfl (by decide) (by decide)

theorem foldl_rpath_step : ∀ (l : List (Nat × Nat)) (acc : Option Nat),
    l.foldl (fun a en => if en.1 = DT_RPATH then some en.2 else a) acc =
      Option.or ((l.reverse.find? (fun en => en.1 == DT_RPATH)).map (fun en => en.2)) acc := by
  intro l
  induction l with
  | nil =>
    intro acc
    simp
  | cons x l ih =>
    intro acc
    simp only [List.foldl_cons, List.reverse_cons, List.find?_append, ih]
    rcases hfind : (l.reverse.find? (fun en => en.1 == DT_RPATH)) with _ | e
    · by_cases hx : x.1 = DT_RPATH
      · have hxb : (x.1 == DT_RPATH) = true := by simpa using hx
        simp [hfind, List.find?, hxb, hx]
      · have hxb : (x.1 == DT_RPATH) = false := by simpa using hx
        simp [hfind, List.find?, hxb, hx]
    · simp [hfind]

theorem scanDynAux_entries : ∀ (n : Nat) (buf : List Nat) (off i : Nat) (acc : Option Nat)
    (es : List (Nat × Nat)),
    readDynEntriesFrom buf off i n = some es →
    scanDynAux buf off n i acc =
      ScanOut.found ((es.takeWhile (fun en => en.1 != DT_NULL)).foldl
        (fun a en => if en.1 = DT_RPATH then some en.2 else a) acc) := by
  intro n
  induction n with
  | zero =>
    intro buf off i acc es h
    simp only [readDynEntriesFrom, Option.some.injEq] at h
    subst h
    simp [scanDynAux]
  | succ n ih =>
    intro buf off i acc es h
    unfold readDynEntriesFrom at h
    rcases h1 : readU64 buf (off + 16 * i) with _ | t
    · rw [h1] at h
      simp at h
    rcases h2 : readU64 buf (off + 16 * i + 8) with _ | v
    · rw [h1, h2] at h
      simp at h
    rw [h1, h2] at h
    rcases h3 : readDynEntriesFrom buf off (i + 1) n with _ | es'
    · rw [h3] at h
      simp at h
    rw [h3] at h
    simp at h
    subst h
    unfold scanDynAux
    rw [h1, h2]
    by_cases ht : t = DT_NULL
    · have htb : (t != DT_NULL) = false := by simpa using ht
      simp [ht, htb, List.takeWhile_cons]
    · have htb : (t != DT_NULL) = true := by simpa using ht
      dsimp only
      rw [if_neg ht, ih buf off (i + 1) _ es' h3]
      simp [List.takeWhile_cons, htb]

/-- Claim C8: the dynamic-table walk of `set_rpath` is bounded by
`sh_size / 16` entries; the entry it settles on is exactly the
spec-side selection - the last `DT_RPATH` entry among the (tag, value)
pairs truncated at the first `DT_NULL`; the walk stops at a leading
`DT_NULL` without touching any later entry; and when no `DT_RPATH` is
found before the walk ends, `set_rpath` exits fatally. -/
theorem dynamic_walk_correct :
    (∀ (buf : List Nat) (off n : Nat) (es : List (Nat × Nat)),
       readDynEntries buf off n = some es →
       scanDynAux buf off n 0 none = ScanOut.found (specLastRpath es)) ∧
    (∀ (buf : List Nat) (off n : Nat) (acc : Option Nat) (v : Nat),
       readU64 buf off = some DT_NULL → readU64 buf (off + 8) = some v →
       scanDynAux buf off (n + 1) 0 acc = ScanOut.found acc) ∧
    (∀ (img : Image) (nr : List Nat) (dyn_sh dynstr_sh : Shdr),
       findSectionByName img.shdrs ".dynamic" = some dyn_sh →
       findSectionByName img.shdrs ".dynstr" = some dynstr_sh →
       scanDynAux img.buf dyn_sh.sh_offset (dyn_sh.sh_size / 16) 0 none =
         ScanOut.found none →
       set_rpath img nr = COut.fatal "Couldn't find DT_RPATH tag") := by
  refine ⟨fun buf off n es h => ?_, fun buf off n acc v h1 h2 => ?_,
    fun img nr dyn_sh dynstr_sh ha hb hscan => ?_⟩
  · rw [scanDynAux_entries n buf off 0 none es h, foldl_rpath_step]
    unfold specLastRpath
    simp
  · unfold scanDynAux
    have h1' : readU64 buf (off + 16 * 0) = some DT_NULL := by simpa using h1
    have h2' : readU64 buf (off + 16 * 0 + 8) = some v := by simpa using h2
    rw [h1', h2']
    simp
  · simp only [set_rpath, ha, hb, hscan]

/-- Witness for C8 on `imgRpathEdge`'s dynamic table (entries
`[(DT_RPATH, 2), (DT_NULL, 0)]`), a leading-`DT_NULL` table, and the
`DT_RPATH`-free image `imgNoRpath`. -/
theorem dynamic_walk_correct_witness :
    scanDynAux imgRpathEdge.buf 8 2 0 none =
      ScanOut.found (specLastRpath [(15, 2), (0, 0)]) ∧
    scanDynAux imgPatchPair.buf 24 (0 + 1) 0 (some 7) = ScanOut.found (some 7) ∧
    set_rpath imgNoRpath [104] = COut.fatal "Couldn't find DT_RPATH tag" :=
  ⟨dynamic_walk_correct.1 imgRpathEdge.buf 8 2 [(15, 2), (0, 0)] (by rfl),
   dynamic_walk_correct.2.1 imgPatchPair.buf 24 0 (some 7) 0 (by rfl) (by rfl),
   dynamic_walk_correct.2.2 imgNoRpath [104] ⟨8, 16⟩ ⟨24, 2⟩ rfl rfl (by rfl)⟩

end Staticx
